import Mathlib

/-!
Shallow embedding of the PNL-ledger and ratio-scouting logic of the
binance-trade-bot auto trader (`binance_trade_bot/auto_trader.py` and the
row models under `binance_trade_bot/models/`).

Conventions of the embedding:
* Exchange prices, balances and amounts are rationals (`ℚ`).  The decimal
  "precision" rounding applied by the `CoinPnl` row constructor in
  `models/coin_pnl.py` is display-level truncation performed by the
  persistence layer and is abstracted away; the USD PNL code in
  `auto_trader.py` rounds to two decimal places itself, which is modelled
  exactly by `round2` (round to nearest hundredth).
* Division in the source language raises `ZeroDivisionError` on a zero
  denominator; this is modelled by `pydiv`, and every function that can
  divide returns an `Option`, with `none` meaning the call raises.
* The database collaborator (`database.py`) and the exchange manager
  (`binance_api_manager.py`) are not part of the analysed sources; their
  operations are modelled from the spec as pure state transformers over
  `DbState` and as an environment of price/balance functions (`Env`).
-/

/-- Division as in the source language: fails (raises `ZeroDivisionError`)
exactly when the denominator is zero. -/
def pydiv (a b : ℚ) : Option ℚ := if b = 0 then none else some (a / b)

/-- Rounding to two decimal places, modelling the source's `round(x, 2)`. -/
def round2 (q : ℚ) : ℚ := (round (q * 100) : ℤ) / 100

/-- Latest-snapshot record of coin-level PNL for one (path, coin) key, from
`models/coin_pnl.py`.  The `path` key is kept outside the row in `DbState`. -/
structure CoinPnl where
  coin : String
  coin_amount : ℚ
  coin_price : ℚ
  bridge_value : ℚ
  coin_gain : ℚ
  percent_gain : ℚ
  total_coin_gain : ℚ
  total_percent_gain : ℚ
  deriving DecidableEq, Repr

/-- Snapshot of USD-level PNL for one path.  Field names follow the accesses
made by `auto_trader.py` (`value`, `gain`, `total_gain`, ...); the column
names in `models/usd_pnl.py` carry a `usd_` prefix for the same data. -/
structure UsdPnl where
  value : ℚ
  gain : ℚ
  percent_gain : ℚ
  total_gain : ℚ
  total_percent_gain : ℚ
  deriving DecidableEq, Repr

/-- Ordered coin pair with its mutable ratio threshold, from `models/pair.py`
(the `ratio` column is nullable). -/
structure Pair where
  from_coin : String
  to_coin : String
  ratio : Option ℚ
  deriving DecidableEq, Repr

/-- Manually executed deposit or withdrawal, from `models/transaction.py`. -/
structure Transaction where
  coin : String
  coin_amount : ℚ
  bridge_price : ℚ
  deposit : Bool
  deriving DecidableEq, Repr

/-- Dual-typed merge endpoint of `merge_paths` / `get_path`: either a coin
(resolved through the ledger) or an already-concrete path id. -/
inductive PathRef where
  | byCoin (coin : String)
  | byPath (id : ℕ)
  deriving DecidableEq, Repr

/-- Scoring mode selector (`RATIO_CALC` in the source configuration). -/
inductive RatioCalc where
  | defaultCalc
  | scoutMargin
  deriving DecidableEq, Repr

/-- Modelled from the spec: the process-wide configuration (`config.py` is
not under the analysed sources).  Per spec section 9 it carries the bridge
asset, the scout multiplier and the ratio-calculation mode. -/
structure Config where
  bridge : String
  scout_multiplier : ℚ
  ratio_calc : RatioCalc
  deriving DecidableEq, Repr

/-- Modelled from the spec: the exchange collaborator
(`binance_api_manager.py` is not under the analysed sources), as pure
lookup functions.  `sell_price` and `min_notional` take the coin symbol and
the bridge symbol; `ticker_price c` is the USDT ticker for coin `c`. -/
structure Env where
  sell_price : String → String → Option ℚ
  ticker_price : String → ℚ
  balance : String → ℚ
  min_notional : String → String → ℚ

/-- Modelled from the spec: the ledger state behind the database
collaborator (`database.py` is not under the analysed sources).  PNL lists
are append-only and kept newest-first, so the head match is the latest
snapshot for a key; `paths` maps a path id to its `active` flag. -/
structure DbState where
  nextPathId : ℕ
  paths : List (ℕ × Bool)
  coins : List String
  activeCoins : List String
  currentCoins : List (String × ℕ)
  coinPnls : List (ℕ × CoinPnl)
  usdPnls : List (ℕ × UsdPnl)
  deriving DecidableEq, Repr

/-- Modelled from the spec: `getCoinPath(coin) -> Path|null`, the coin's
current path assignment (latest `set_current_coin` entry). -/
def get_coin_path (st : DbState) (coin : String) : Option ℕ :=
  (st.currentCoins.find? (fun e => e.1 == coin)).map (fun e => e.2)

/-- Modelled from the spec: `setNewCoinPath() -> Path` allocates a fresh
active path and returns it. -/
def set_new_coin_path (st : DbState) : ℕ × DbState :=
  (st.nextPathId,
    { st with nextPathId := st.nextPathId + 1, paths := (st.nextPathId, true) :: st.paths })

/-- Modelled from the spec: `deactivatePath(path)` clears the active flag
(paths are never deleted). -/
def deactivate_path (st : DbState) (p : ℕ) : DbState :=
  { st with paths := st.paths.map (fun e => if e.1 = p then (e.1, false) else e) }

/-- Modelled from the spec: `setCurrentCoin(coin, path)` records the coin's
current path assignment. -/
def set_current_coin (st : DbState) (coin : String) (p : ℕ) : DbState :=
  { st with currentCoins := (coin, p) :: st.currentCoins }

/-- Modelled from the spec: `getLastCoinPnl(coin, path)` returns the latest
coin PNL snapshot for the key, if any. -/
def get_last_coin_pnl (st : DbState) (coin : String) (p : ℕ) : Option CoinPnl :=
  (st.coinPnls.find? (fun e => e.1 == p && e.2.coin == coin)).map (fun e => e.2)

/-- Modelled from the spec: appending one coin PNL row for a path
(`setCoinPnl` persistence side). -/
def append_coin_pnl (st : DbState) (p : ℕ) (row : CoinPnl) : DbState :=
  { st with coinPnls := (p, row) :: st.coinPnls }

/-- Modelled from the spec: `getLastUsdPnl(path)`. -/
def get_last_usd_pnl (st : DbState) (p : ℕ) : Option UsdPnl :=
  (st.usdPnls.find? (fun e => e.1 == p)).map (fun e => e.2)

/-- Modelled from the spec: `setUsdPnl(path, value, gain, percent_gain,
total_gain, total_percent_gain)` appends one USD PNL row. -/
def set_usd_pnl (st : DbState) (p : ℕ) (v g pg tg tpg : ℚ) : DbState :=
  { st with usdPnls := (p, ⟨v, g, pg, tg, tpg⟩) :: st.usdPnls }

/-- Embeds `AutoTrader.get_path`: a `Path` argument is returned as is, a
`Coin` argument is resolved through the ledger. -/
def resolve_path (st : DbState) : PathRef → Option ℕ
  | PathRef.byPath p => some p
  | PathRef.byCoin c => get_coin_path st c

/-- Row constructor used by `AutoTrader.set_coin_pnl` via the `CoinPnl`
model constructor: `bridge_value` is `coin_amount * coin_price`
(precision rounding abstracted, see the file header). -/
def set_coin_pnl_row (coin : String) (quantity price coin_gain percent_gain
    total_coin_gain total_percent_gain : ℚ) : CoinPnl :=
  { coin := coin, coin_amount := quantity, coin_price := price,
    bridge_value := quantity * price, coin_gain := coin_gain,
    percent_gain := percent_gain, total_coin_gain := total_coin_gain,
    total_percent_gain := total_percent_gain }

/-- Embeds `AutoTrader.calculate_weighted_average` (lines 674-691): both
weights are divided by the total, so the call raises exactly when the
weights sum to zero. -/
def calculate_weighted_average (weight_a weight_b value_a value_b : ℚ) : Option ℚ :=
  let total_amount := weight_a + weight_b
  match pydiv weight_a total_amount, pydiv weight_b total_amount with
  | some path_a_weight_multiplier, some path_b_weight_multiplier =>
      some (value_a * path_a_weight_multiplier + value_b * path_b_weight_multiplier)
  | _, _ => none

/-- Embeds `AutoTrader.update_coin_pnl` (lines 470-488), with the latest
snapshot lookup purified into the `previous_coin_pnl` argument. -/
def update_coin_pnl (previous_coin_pnl : Option CoinPnl) (coin : String)
    (quantity price : ℚ) : Option CoinPnl :=
  match previous_coin_pnl with
  | none => some (set_coin_pnl_row coin quantity price 0 0 0 0)
  | some p =>
    let coin_gain := quantity - p.coin_amount
    match pydiv coin_gain p.coin_amount with
    | none => none
    | some d =>
      some (set_coin_pnl_row coin quantity price coin_gain (d * 100)
        (p.total_coin_gain + coin_gain) (p.total_percent_gain + d * 100))

/-- Embeds `AutoTrader.merge_single_path_coin_pnl` (lines 557-579): merging
a coin with history on exactly one of two merging paths. -/
def merge_single_path_coin_pnl (path_a_coin_amt path_b_coin_amt : ℚ)
    (merging_coin_pnl : CoinPnl) : Option CoinPnl :=
  let merged_amount := path_a_coin_amt + path_b_coin_amt
  match pydiv merging_coin_pnl.coin_amount merged_amount with
  | none => none
  | some d =>
    let path_a_weight_multiplier := 1 - d
    some (set_coin_pnl_row merging_coin_pnl.coin merged_amount merging_coin_pnl.coin_price
      merging_coin_pnl.coin_gain (merging_coin_pnl.percent_gain * path_a_weight_multiplier)
      merging_coin_pnl.total_coin_gain
      (merging_coin_pnl.total_percent_gain * path_a_weight_multiplier))

/-- Embeds `AutoTrader.merge_double_path_coin_pnl` (lines 581-606): merging
a coin with history on both merging paths. -/
def merge_double_path_coin_pnl (path_a_coin_pnl path_b_coin_pnl : CoinPnl) : Option CoinPnl :=
  let path_a_amt := path_a_coin_pnl.coin_amount
  let path_b_amt := path_b_coin_pnl.coin_amount
  let merged_amount := path_a_amt + path_b_amt
  match calculate_weighted_average path_a_amt path_b_amt path_a_coin_pnl.coin_price path_b_coin_pnl.coin_price,
    calculate_weighted_average path_a_amt path_b_amt path_a_coin_pnl.percent_gain path_b_coin_pnl.percent_gain,
    calculate_weighted_average path_a_amt path_b_amt path_a_coin_pnl.total_percent_gain path_b_coin_pnl.total_percent_gain with
  | some weighted_avg_coin_price, some weighted_avg_percent_gain, some weighted_avg_total_percent_gain =>
    some (set_coin_pnl_row path_a_coin_pnl.coin merged_amount weighted_avg_coin_price
      (path_a_coin_pnl.coin_gain + path_b_coin_pnl.coin_gain) weighted_avg_percent_gain
      (path_a_coin_pnl.total_coin_gain + path_b_coin_pnl.total_coin_gain)
      weighted_avg_total_percent_gain)
  | _, _, _ => none

/-- Embeds `AutoTrader.merge_jumping_to_coin_pnl` (lines 529-555): merging
the destination coin itself.  The source dereferences `path_b_coin_pnl`
unconditionally, so a missing destination-side snapshot raises. -/
def merge_jumping_to_coin_pnl (path_a_coin_pnl : Option CoinPnl)
    (path_b_coin_pnl : Option CoinPnl) (price quantity : ℚ) : Option CoinPnl :=
  match path_b_coin_pnl with
  | none => none
  | some b =>
    let merged_quantity := quantity + b.coin_amount
    match path_a_coin_pnl with
    | none =>
      some (set_coin_pnl_row b.coin merged_quantity price b.coin_gain b.percent_gain
        b.total_coin_gain b.total_percent_gain)
    | some a =>
      let previous_amount := a.coin_amount + b.coin_amount
      match calculate_weighted_average quantity b.coin_amount a.coin_price b.coin_price with
      | none => none
      | some price' =>
        let coin_gain := merged_quantity - previous_amount
        match pydiv coin_gain previous_amount with
        | none => none
        | some d =>
          some (set_coin_pnl_row b.coin merged_quantity price' coin_gain (d * 100)
            (a.total_coin_gain + b.total_coin_gain + coin_gain)
            (a.total_percent_gain + b.total_percent_gain + d * 100))

/-- Embeds the score computation of `AutoTrader._get_ratios` (lines
192-201) for one pair, in the two selectable scoring modes. -/
def get_ratios_score (mode : RatioCalc) (coin_opt_coin_ratio from_fee to_fee
    scout_multiplier pair_ratio : ℚ) : ℚ :=
  match mode with
  | RatioCalc.defaultCalc =>
    let transaction_fee := from_fee + to_fee
    (coin_opt_coin_ratio - transaction_fee * scout_multiplier * coin_opt_coin_ratio) - pair_ratio
  | RatioCalc.scoutMargin =>
    let transaction_fee := from_fee + to_fee - from_fee * to_fee
    (1 - transaction_fee) * coin_opt_coin_ratio / pair_ratio - (1 + scout_multiplier / 100)

/-- First-encountered maximum by score, as computed by the source's
`max(ratio_dict, key=ratio_dict.get)` over insertion order. -/
def max_by_ratio (x : Pair × ℚ) (xs : List (Pair × ℚ)) : Pair × ℚ :=
  xs.foldl (fun best y => if y.2 > best.2 then y else best) x

/-- Embeds the selection step of `AutoTrader._jump_to_best_coin` (lines
205-218): keep only positive scores and pick the first-encountered
maximum, or nothing when no positive score remains. -/
def jump_to_best_coin_choice (ratio_dict : List (Pair × ℚ)) : Option (Pair × ℚ) :=
  match ratio_dict.filter (fun kv => decide (kv.2 > 0)) with
  | [] => none
  | x :: xs => some (max_by_ratio x xs)

/-- Embeds the per-pair body of `AutoTrader.update_trade_threshold` (lines
108-123): a pair pointing at the held coin has its ratio recomputed unless
the from-coin price is unavailable or the held from-coin balance value
exceeds the minimum notional. -/
def update_pair_ratio (cfg : Config) (env : Env) (coin : String) (coin_price : ℚ)
    (p : Pair) : Pair :=
  if p.to_coin = coin then
    match env.sell_price p.from_coin cfg.bridge with
    | none => p
    | some from_coin_price =>
      let from_coin_balance := env.balance p.from_coin
      let min_notional := env.min_notional p.from_coin cfg.bridge
      if from_coin_price * from_coin_balance > min_notional then p
      else { p with ratio := some (from_coin_price / coin_price) }
  else p

/-- Embeds `AutoTrader.update_trade_threshold` (lines 97-123).  The source
iterates the pairs whose `to_coin` is the held coin and mutates them in
place; this is modelled as a map over the pair table that leaves all other
pairs unchanged. -/
def update_trade_threshold (cfg : Config) (env : Env) (coin : String)
    (coin_price : Option ℚ) (pairs : List Pair) : List Pair :=
  match coin_price with
  | none => pairs
  | some cp =>
    if cp = 0 then pairs
    else pairs.map (update_pair_ratio cfg env coin cp)

/-- Embeds `AutoTrader.update_usd_pnl` (lines 410-432).  The source
computes the rounded gain first and then divides it by the adjusted
previous value, raising when that denominator is zero. -/
def update_usd_pnl (env : Env) (coin : String) (p : ℕ) (tx_amt : ℚ)
    (st : DbState) : Option DbState :=
  let coin_price := if coin = "USDT" then 1 else env.ticker_price coin
  let usd_value := round2 (env.balance coin * coin_price)
  match get_last_usd_pnl st p with
  | none => some (set_usd_pnl st p usd_value 0 0 0 0)
  | some last_pnl =>
    let gain := round2 (usd_value - (last_pnl.value + tx_amt))
    match pydiv gain (last_pnl.value + tx_amt) with
    | none => none
    | some d =>
      let percent_gain := round2 (d * 100)
      let total_gain := round2 (last_pnl.total_gain + gain)
      let total_percent_gain := round2 (last_pnl.total_percent_gain + percent_gain)
      some (set_usd_pnl st p usd_value gain percent_gain total_gain total_percent_gain)

/-- Loop body sequence of `AutoTrader.update_all_usd_pnl` (lines 398-408)
over a snapshot of the active coins.  An active coin with no resolvable
path has no defined behaviour in the spec and is modelled as a failure. -/
def update_all_usd_pnl_loop (env : Env) : DbState → List String → Option DbState
  | st, [] => some st
  | st, c :: rest =>
    match get_coin_path st c with
    | none => none
    | some p =>
      match update_usd_pnl env c p 0 st with
      | none => none
      | some st1 => update_all_usd_pnl_loop env st1 rest

/-- Embeds `AutoTrader.update_all_usd_pnl` (lines 398-408). -/
def update_all_usd_pnl (env : Env) (st : DbState) : Option DbState :=
  update_all_usd_pnl_loop env st st.activeCoins

/-- Embeds `AutoTrader.merge_path_usd_pnl` (lines 434-464). -/
def merge_path_usd_pnl (env : Env) (coin : String) (path_a path_b new_path : ℕ)
    (st : DbState) : Option DbState :=
  let coin_price := env.ticker_price coin
  let usd_value := round2 (env.balance coin * coin_price)
  match get_last_usd_pnl st path_a, get_last_usd_pnl st path_b with
  | some a, some b =>
    let old_value := a.value + b.value
    let old_gain := a.gain + b.gain
    let gain := round2 (usd_value - old_value)
    match pydiv gain old_value with
    | none => none
    | some d =>
      let percent_gain := round2 (d * 100)
      let total_gain := round2 (old_gain + gain)
      match calculate_weighted_average a.value b.value a.total_percent_gain b.total_percent_gain with
      | none => none
      | some old_total_percent_gain =>
        let total_percent_gain := round2 (old_total_percent_gain + percent_gain)
        some (set_usd_pnl st new_path usd_value gain percent_gain total_gain total_percent_gain)
  | _, _ => update_usd_pnl env coin new_path 0 st

/-- Per-coin case dispatch of `AutoTrader.merge_paths_coin_pnl` (lines
490-527), appending the merged snapshot to the new path. -/
def merge_paths_coin_pnl_step (to_coin : String) (path_a path_b new_path : ℕ)
    (quantity price : ℚ) (s : DbState) (coin : String) : Option DbState :=
  let path_a_coin_pnl := get_last_coin_pnl s coin path_a
  let path_b_coin_pnl := get_last_coin_pnl s coin path_b
  if coin = to_coin then
    match merge_jumping_to_coin_pnl path_a_coin_pnl path_b_coin_pnl price quantity with
    | none => none
    | some row => some (append_coin_pnl s new_path row)
  else
    match path_a_coin_pnl, path_b_coin_pnl with
    | none, none => some s
    | some a, none =>
      match pydiv (quantity * price) a.coin_price with
      | none => none
      | some path_a_coin_amt =>
        match get_last_coin_pnl s to_coin path_b with
        | none => none
        | some path_b_previous_coin_pnl =>
          match pydiv path_b_previous_coin_pnl.bridge_value a.coin_price with
          | none => none
          | some path_b_coin_amt =>
            match merge_single_path_coin_pnl path_a_coin_amt path_b_coin_amt a with
            | none => none
            | some row => some (append_coin_pnl s new_path row)
    | none, some b =>
      match pydiv (quantity * price) b.coin_price with
      | none => none
      | some path_a_coin_amt =>
        match merge_single_path_coin_pnl path_a_coin_amt b.coin_amount b with
        | none => none
        | some row => some (append_coin_pnl s new_path row)
    | some a, some b =>
      match merge_double_path_coin_pnl a b with
      | none => none
      | some row => some (append_coin_pnl s new_path row)

/-- Enabled-coin loop of `AutoTrader.merge_paths_coin_pnl` (lines 490-527)
over a snapshot of the enabled coins. -/
def merge_paths_coin_pnl_loop (to_coin : String) (path_a path_b new_path : ℕ)
    (quantity price : ℚ) : DbState → List String → Option DbState
  | st, [] => some st
  | st, c :: rest =>
    match merge_paths_coin_pnl_step to_coin path_a path_b new_path quantity price st c with
    | none => none
    | some st1 => merge_paths_coin_pnl_loop to_coin path_a path_b new_path quantity price st1 rest

/-- Embeds `AutoTrader.merge_paths_coin_pnl` (lines 490-527). -/
def merge_paths_coin_pnl (to_coin : String) (path_a path_b new_path : ℕ)
    (quantity price : ℚ) (st : DbState) : Option DbState :=
  merge_paths_coin_pnl_loop to_coin path_a path_b new_path quantity price st st.coins

/-- Embeds `AutoTrader.merge_paths` (lines 360-381).  The outer `none`
means the Python call raises; `some (none, st)` is the source's explicit
`return None` after the failed resolution check, which happens only after
`set_new_coin_path` has already allocated the new path. -/
def merge_paths (env : Env) (merge_from : PathRef) (merge_to : String)
    (quantity price : ℚ) (st : DbState) : Option (Option ℕ × DbState) :=
  let path_a := resolve_path st merge_from
  let path_b := get_coin_path st merge_to
  let alloc := set_new_coin_path st
  match path_a, path_b with
  | some pa, some pb =>
    match merge_paths_coin_pnl merge_to pa pb alloc.1 quantity price alloc.2 with
    | none => none
    | some st2 =>
      match merge_path_usd_pnl env merge_to pa pb alloc.1 st2 with
      | none => none
      | some st3 => some (some alloc.1, deactivate_path (deactivate_path st3 pa) pb)
  | _, _ => some (none, alloc.2)

/-- Embeds `AutoTrader.set_deposited_coin_pnl_new_path` (lines 608-631). -/
def set_deposited_coin_pnl_new_path (coin : String) (p : ℕ) (quantity price : ℚ)
    (st : DbState) : DbState :=
  match get_last_coin_pnl st coin p with
  | none => append_coin_pnl st p (set_coin_pnl_row coin quantity price 0 0 0 0)
  | some prev =>
    append_coin_pnl st p (set_coin_pnl_row coin (prev.coin_amount + quantity) price
      prev.coin_gain prev.percent_gain prev.total_coin_gain prev.total_percent_gain)

/-- Per-enabled-coin row recomputation of
`AutoTrader.set_deposited_coin_pnl_existing_path` (lines 643-661): the
moved quantity is added (signed) without touching any gain field; for a
coin other than the transacted one the quantity is approximated through
the bridge value at the coin's last price. -/
def adjust_existing_row (coin : String) (quantity price : ℚ) (enabled_coin : String)
    (previous_coin_pnl : CoinPnl) : Option CoinPnl :=
  let est_lp : Option (ℚ × ℚ) :=
    if enabled_coin = coin then some (quantity, price)
    else
      match pydiv (quantity * price) previous_coin_pnl.coin_price with
      | none => none
      | some estimated_quantity => some (estimated_quantity, previous_coin_pnl.coin_price)
  match est_lp with
  | none => none
  | some (estimated_quantity, last_price) =>
    let total_quantity := previous_coin_pnl.coin_amount + estimated_quantity
    let avg_price :=
      if estimated_quantity > 0 then
        pydiv (estimated_quantity * last_price + previous_coin_pnl.bridge_value) total_quantity
      else some previous_coin_pnl.coin_price
    match avg_price with
    | none => none
    | some ap =>
      some (set_coin_pnl_row enabled_coin total_quantity ap previous_coin_pnl.coin_gain
        previous_coin_pnl.percent_gain previous_coin_pnl.total_coin_gain
        previous_coin_pnl.total_percent_gain)

/-- Enabled-coin loop of `AutoTrader.set_deposited_coin_pnl_existing_path`
(lines 633-665): coins without history on the path are skipped, others get
a recomputed snapshot appended. -/
def set_deposited_coin_pnl_existing_path_loop (coin : String) (p : ℕ)
    (quantity price : ℚ) : DbState → List String → Option DbState
  | st, [] => some st
  | st, ec :: rest =>
    match get_last_coin_pnl st ec p with
    | none => set_deposited_coin_pnl_existing_path_loop coin p quantity price st rest
    | some prev =>
      match adjust_existing_row coin quantity price ec prev with
      | none => none
      | some row =>
        set_deposited_coin_pnl_existing_path_loop coin p quantity price
          (append_coin_pnl st p row) rest

/-- Embeds `AutoTrader.set_deposited_coin_pnl_existing_path` (lines
633-665). -/
def set_deposited_coin_pnl_existing_path (coin : String) (p : ℕ)
    (quantity price : ℚ) (st : DbState) : Option DbState :=
  set_deposited_coin_pnl_existing_path_loop coin p quantity price st st.coins

/-- Per-transaction dispatch of `AutoTrader.handle_manual_transactions`
(lines 294-329).  The modelled `set_new_coin_path` always succeeds, so the
source's `new_path is None` guard has no corresponding branch. -/
def handle_one_transaction (env : Env) (exchange_active bot_active new_coins
    removed_coins : List String) (st : DbState) (tx : Transaction) : Option DbState :=
  if tx.coin ∈ new_coins ∧ tx.deposit = true then
    let alloc := set_new_coin_path st
    let st1 := set_current_coin alloc.2 tx.coin alloc.1
    let st2 := set_deposited_coin_pnl_new_path tx.coin alloc.1 tx.coin_amount tx.bridge_price st1
    update_all_usd_pnl env st2
  else if tx.coin ∈ removed_coins ∧ tx.deposit = false then
    match get_coin_path st tx.coin with
    | none => some st
    | some old_path => some (deactivate_path st old_path)
  else if tx.coin ∈ exchange_active ∧ tx.coin ∈ bot_active then
    let quantity := if tx.deposit then tx.coin_amount else - tx.coin_amount
    match get_coin_path st tx.coin with
    | none => some st
    | some coin_path =>
      match set_deposited_coin_pnl_existing_path tx.coin coin_path quantity tx.bridge_price st with
      | none => none
      | some st1 => update_usd_pnl env tx.coin coin_path (quantity * tx.bridge_price) st1
  else some st

/-- Transaction loop of `AutoTrader.handle_manual_transactions`. -/
def handle_manual_transactions_loop (env : Env) (exchange_active bot_active new_coins
    removed_coins : List String) : DbState → List Transaction → Option DbState
  | st, [] => some st
  | st, tx :: rest =>
    match handle_one_transaction env exchange_active bot_active new_coins removed_coins st tx with
    | none => none
    | some st1 =>
      handle_manual_transactions_loop env exchange_active bot_active new_coins removed_coins st1 rest

/-- Embeds `AutoTrader.handle_manual_transactions` (lines 270-329):
`new_coins` and `removed_coins` are the set differences computed before
the loop. -/
def handle_manual_transactions (env : Env) (txs : List Transaction)
    (exchange_active bot_active : List String) (st : DbState) : Option DbState :=
  handle_manual_transactions_loop env exchange_active bot_active
    (exchange_active.filter (fun x => decide (x ∉ bot_active)))
    (bot_active.filter (fun x => decide (x ∉ exchange_active))) st txs

lemma calculate_weighted_average_eq (wa wb va vb : ℚ) (h : wa + wb ≠ 0) :
    calculate_weighted_average wa wb va vb = some ((wa * va + wb * vb) / (wa + wb)) := by
  simp only [calculate_weighted_average, pydiv, if_neg h]
  congr 1
  field_simp
  ring

lemma calculate_weighted_average_none_iff (wa wb va vb : ℚ) :
    calculate_weighted_average wa wb va vb = none ↔ wa + wb = 0 := by
  by_cases h : wa + wb = 0
  · simp [calculate_weighted_average, pydiv, h]
  · simp [calculate_weighted_average_eq wa wb va vb h, h]

lemma weighted_avg_between (wa wb va vb : ℚ) (ha : 0 ≤ wa) (hb : 0 ≤ wb)
    (h : wa + wb ≠ 0) :
    min va vb ≤ (wa * va + wb * vb) / (wa + wb)
      ∧ (wa * va + wb * vb) / (wa + wb) ≤ max va vb := by
  have ht : 0 < wa + wb := lt_of_le_of_ne (by positivity) (Ne.symm h)
  constructor
  · rw [le_div_iff₀ ht]
    nlinarith [mul_le_mul_of_nonneg_left (min_le_left va vb) ha,
      mul_le_mul_of_nonneg_left (min_le_right va vb) hb]
  · rw [div_le_iff₀ ht]
    nlinarith [mul_le_mul_of_nonneg_left (le_max_left va vb) ha,
      mul_le_mul_of_nonneg_left (le_max_right va vb) hb]

/-- C9: `calculate_weighted_average(wa, wb, va, vb)` equals
`(wa*va + wb*vb)/(wa+wb)` whenever `wa+wb ≠ 0`, and it fails (division by
zero) exactly when `wa+wb = 0`. -/
theorem calculate_weighted_average_spec (wa wb va vb : ℚ) :
    (wa + wb ≠ 0 →
      calculate_weighted_average wa wb va vb = some ((wa * va + wb * vb) / (wa + wb)))
    ∧ (calculate_weighted_average wa wb va vb = none ↔ wa + wb = 0) :=
  ⟨fun h => calculate_weighted_average_eq wa wb va vb h,
    calculate_weighted_average_none_iff wa wb va vb⟩

/-- C9 witness: the concrete instance `calculate_weighted_average 1 1 10 20 = 15`. -/
theorem calculate_weighted_average_spec_witness :
    calculate_weighted_average 1 1 10 20 = some 15 := by
  rw [(calculate_weighted_average_spec 1 1 10 20).1 (by norm_num)]
  norm_num

/-- C7: for all positive ratio, fees, multiplier and pair ratio, the
default-mode score equals `coin_opt_ratio*(1 - (feeFrom+feeTo)*mult) -
pair.ratio` exactly and the scout-margin score equals
`(1 - (feeFrom + feeTo - feeFrom*feeTo)) * coin_opt_ratio / pair.ratio -
(1 + mult/100)` exactly. -/
theorem get_ratios_score_spec (r ff tf m pr : ℚ) (hr : 0 < r) (hff : 0 < ff)
    (htf : 0 < tf) (hm : 0 < m) (hpr : 0 < pr) :
    get_ratios_score RatioCalc.defaultCalc r ff tf m pr = r * (1 - (ff + tf) * m) - pr
    ∧ get_ratios_score RatioCalc.scoutMargin r ff tf m pr
        = (1 - (ff + tf - ff * tf)) * r / pr - (1 + m / 100) := by
  constructor <;> simp only [get_ratios_score] <;> ring

/-- C7 witness: both score identities at a concrete positive input. -/
theorem get_ratios_score_spec_witness :
    get_ratios_score RatioCalc.defaultCalc 2 (1/100) (1/100) 5 1
        = 2 * (1 - (1/100 + 1/100) * 5) - 1
    ∧ get_ratios_score RatioCalc.scoutMargin 2 (1/100) (1/100) 5 1
        = (1 - (1/100 + 1/100 - (1/100) * (1/100))) * 2 / 1 - (1 + 5 / 100) :=
  get_ratios_score_spec 2 (1/100) (1/100) 5 1 (by norm_num) (by norm_num)
    (by norm_num) (by norm_num) (by norm_num)

/-- C3: `update_coin_pnl` returns a row with all four gain fields zero when
no prior snapshot exists; with a prior snapshot of non-zero amount it
returns the incremental and running gains computed against it; and it
fails with a division by zero exactly when a prior snapshot exists with
`coin_amount = 0`. -/
theorem update_coin_pnl_spec (prev : Option CoinPnl) (coin : String) (q price : ℚ) :
    (prev = none →
      ∃ r, update_coin_pnl prev coin q price = some r
        ∧ r.coin_gain = 0 ∧ r.percent_gain = 0
        ∧ r.total_coin_gain = 0 ∧ r.total_percent_gain = 0)
    ∧ (∀ p, prev = some p → p.coin_amount ≠ 0 →
      ∃ r, update_coin_pnl prev coin q price = some r
        ∧ r.coin_gain = q - p.coin_amount
        ∧ r.percent_gain = (q - p.coin_amount) / p.coin_amount * 100
        ∧ r.total_coin_gain = p.total_coin_gain + (q - p.coin_amount)
        ∧ r.total_percent_gain
            = p.total_percent_gain + (q - p.coin_amount) / p.coin_amount * 100)
    ∧ (update_coin_pnl prev coin q price = none
        ↔ ∃ p, prev = some p ∧ p.coin_amount = 0) := by
  refine ⟨?_, ?_, ?_⟩
  · rintro rfl
    exact ⟨_, rfl, rfl, rfl, rfl, rfl⟩
  · rintro p rfl hp
    simp [update_coin_pnl, pydiv, hp, set_coin_pnl_row]
  · cases prev with
    | none => simp [update_coin_pnl]
    | some p =>
      by_cases hp : p.coin_amount = 0 <;>
        simp [update_coin_pnl, pydiv, hp, set_coin_pnl_row]

/-- C3 witness: a no-history call, a call against a prior snapshot of
amount 4, and the failing zero-amount case, all concrete. -/
theorem update_coin_pnl_spec_witness :
    (∃ r, update_coin_pnl none "BTC" 5 2 = some r
      ∧ r.coin_gain = 0 ∧ r.percent_gain = 0
      ∧ r.total_coin_gain = 0 ∧ r.total_percent_gain = 0)
    ∧ (∃ r, update_coin_pnl (some (set_coin_pnl_row "BTC" 4 2 1 25 1 25)) "BTC" 5 2 = some r
      ∧ r.coin_gain = 5 - 4 ∧ r.total_coin_gain = 1 + (5 - 4))
    ∧ update_coin_pnl (some (set_coin_pnl_row "BTC" 0 2 0 0 0 0)) "BTC" 5 2 = none := by
  refine ⟨(update_coin_pnl_spec none "BTC" 5 2).1 rfl, ?_, ?_⟩
  · obtain ⟨r, h1, h2, _, h4, _⟩ :=
      (update_coin_pnl_spec (some (set_coin_pnl_row "BTC" 4 2 1 25 1 25)) "BTC" 5 2).2.1
        (set_coin_pnl_row "BTC" 4 2 1 25 1 25) rfl (by norm_num [set_coin_pnl_row])
    exact ⟨r, h1, by simpa [set_coin_pnl_row] using h2, by simpa [set_coin_pnl_row] using h4⟩
  · exact (update_coin_pnl_spec (some (set_coin_pnl_row "BTC" 0 2 0 0 0 0)) "BTC" 5 2).2.2.mpr
      ⟨_, rfl, by norm_num [set_coin_pnl_row]⟩

/-- C4: a single-sided merge produces a snapshot whose amount is the sum of
the two approximated amounts, whose percent gains are the known side's
values scaled by `1 - knownAmount / mergedAmount`, and whose coin gains
pass through from the known side unchanged. -/
theorem merge_single_path_coin_pnl_spec (a b : ℚ) (m : CoinPnl) (h : a + b ≠ 0) :
    ∃ r, merge_single_path_coin_pnl a b m = some r
      ∧ r.coin_amount = a + b
      ∧ r.percent_gain = m.percent_gain * (1 - m.coin_amount / (a + b))
      ∧ r.total_percent_gain = m.total_percent_gain * (1 - m.coin_amount / (a + b))
      ∧ r.coin_gain = m.coin_gain
      ∧ r.total_coin_gain = m.total_coin_gain := by
  simp [merge_single_path_coin_pnl, pydiv, h, set_coin_pnl_row]

/-- C4 witness: a concrete single-sided merge with approximated amounts
3 and 1 and known amount 2 dilutes the percent gains by half. -/
theorem merge_single_path_coin_pnl_spec_witness :
    ∃ r, merge_single_path_coin_pnl 3 1 (set_coin_pnl_row "ETH" 2 10 1 50 1 50) = some r
      ∧ r.coin_amount = 3 + 1
      ∧ r.percent_gain
          = (set_coin_pnl_row "ETH" 2 10 1 50 1 50).percent_gain * (1 - 2 / (3 + 1))
      ∧ r.coin_gain = (set_coin_pnl_row "ETH" 2 10 1 50 1 50).coin_gain := by
  obtain ⟨r, h1, h2, h3, _, h5, _⟩ :=
    merge_single_path_coin_pnl_spec 3 1 (set_coin_pnl_row "ETH" 2 10 1 50 1 50) (by norm_num)
  exact ⟨r, h1, h2, by simpa [set_coin_pnl_row] using h3, h5⟩

lemma merge_double_row (a b : CoinPnl)
    (h : a.coin_amount + b.coin_amount ≠ 0) :
    ∃ r, merge_double_path_coin_pnl a b = some r
      ∧ r.coin_amount = a.coin_amount + b.coin_amount
      ∧ r.coin_gain = a.coin_gain + b.coin_gain
      ∧ r.total_coin_gain = a.total_coin_gain + b.total_coin_gain
      ∧ r.coin_price = (a.coin_amount * a.coin_price + b.coin_amount * b.coin_price)
          / (a.coin_amount + b.coin_amount)
      ∧ r.percent_gain = (a.coin_amount * a.percent_gain + b.coin_amount * b.percent_gain)
          / (a.coin_amount + b.coin_amount)
      ∧ r.total_percent_gain
          = (a.coin_amount * a.total_percent_gain + b.coin_amount * b.total_percent_gain)
          / (a.coin_amount + b.coin_amount)
      ∧ (0 ≤ a.coin_amount → 0 ≤ b.coin_amount →
          min a.percent_gain b.percent_gain ≤ r.percent_gain
            ∧ r.percent_gain ≤ max a.percent_gain b.percent_gain) := by
  refine ⟨set_coin_pnl_row a.coin (a.coin_amount + b.coin_amount)
      ((a.coin_amount * a.coin_price + b.coin_amount * b.coin_price)
        / (a.coin_amount + b.coin_amount))
      (a.coin_gain + b.coin_gain)
      ((a.coin_amount * a.percent_gain + b.coin_amount * b.percent_gain)
        / (a.coin_amount + b.coin_amount))
      (a.total_coin_gain + b.total_coin_gain)
      ((a.coin_amount * a.total_percent_gain + b.coin_amount * b.total_percent_gain)
        / (a.coin_amount + b.coin_amount)), ?_, rfl, rfl, rfl, rfl, rfl, rfl, ?_⟩
  · simp [merge_double_path_coin_pnl, calculate_weighted_average_eq _ _ _ _ h]
  · intro ha hb
    exact weighted_avg_between a.coin_amount b.coin_amount a.percent_gain b.percent_gain ha hb h

/-- C2: for a merge of a coin with a latest snapshot on both merging paths
that is not the jump-destination coin, the merge step appends to the new
path a snapshot whose amount and absolute gains are the sums of the two
pre-merge values and whose price and percent gains are the amount-weighted
averages; consequently, for non-negative amounts the merged percent gain
lies between the two input percent gains. -/
theorem merge_double_path_coin_pnl_spec (to_coin coin : String)
    (path_a path_b new_path : ℕ) (quantity price : ℚ) (st : DbState) (a b : CoinPnl)
    (hne : coin ≠ to_coin)
    (ha : get_last_coin_pnl st coin path_a = some a)
    (hb : get_last_coin_pnl st coin path_b = some b)
    (h : a.coin_amount + b.coin_amount ≠ 0) :
    ∃ r, merge_paths_coin_pnl_step to_coin path_a path_b new_path quantity price st coin
        = some (append_coin_pnl st new_path r)
      ∧ merge_double_path_coin_pnl a b = some r
      ∧ r.coin_amount = a.coin_amount + b.coin_amount
      ∧ r.coin_gain = a.coin_gain + b.coin_gain
      ∧ r.total_coin_gain = a.total_coin_gain + b.total_coin_gain
      ∧ r.coin_price = (a.coin_amount * a.coin_price + b.coin_amount * b.coin_price)
          / (a.coin_amount + b.coin_amount)
      ∧ r.percent_gain = (a.coin_amount * a.percent_gain + b.coin_amount * b.percent_gain)
          / (a.coin_amount + b.coin_amount)
      ∧ r.total_percent_gain
          = (a.coin_amount * a.total_percent_gain + b.coin_amount * b.total_percent_gain)
          / (a.coin_amount + b.coin_amount)
      ∧ (0 ≤ a.coin_amount → 0 ≤ b.coin_amount →
          min a.percent_gain b.percent_gain ≤ r.percent_gain
            ∧ r.percent_gain ≤ max a.percent_gain b.percent_gain) := by
  obtain ⟨r, hr, h1, h2, h3, h4, h5, h6, h7⟩ := merge_double_row a b h
  refine ⟨r, ?_, hr, h1, h2, h3, h4, h5, h6, h7⟩
  simp only [merge_paths_coin_pnl_step, if_neg hne, ha, hb, hr]

/-- Snapshot of 1 LTC at price 8 with percent gain 10, for the C2 witness. -/
def a2 : CoinPnl := set_coin_pnl_row "LTC" 1 8 2 10 2 10

/-- Snapshot of 3 LTC at price 12 with percent gain 30, for the C2 witness. -/
def b2 : CoinPnl := set_coin_pnl_row "LTC" 3 12 1 30 1 30

/-- Ledger with LTC history on both merging paths 0 and 1, for the C2
witness. -/
def st2 : DbState :=
  { nextPathId := 2, paths := [(0, true), (1, true)], coins := ["LTC", "BTC"],
    activeCoins := [], currentCoins := [], coinPnls := [(0, a2), (1, b2)], usdPnls := [] }

/-- C2 witness: a concrete both-sided merge of amounts 1 and 3 with percent
gains 10 and 30: the step appends the merged row, the amount and total
gain are the sums, and the merged percent gain lies between 10 and 30. -/
theorem merge_double_path_coin_pnl_spec_witness :
    ∃ r, merge_paths_coin_pnl_step "BTC" 0 1 2 5 1 st2 "LTC"
        = some (append_coin_pnl st2 2 r)
      ∧ r.coin_amount = a2.coin_amount + b2.coin_amount
      ∧ r.total_coin_gain = a2.total_coin_gain + b2.total_coin_gain
      ∧ min a2.percent_gain b2.percent_gain ≤ r.percent_gain
      ∧ r.percent_gain ≤ max a2.percent_gain b2.percent_gain := by
  obtain ⟨r, hstep, _, h1, _, h3, _, _, _, h8⟩ :=
    merge_double_path_coin_pnl_spec "BTC" "LTC" 0 1 2 5 1 st2 a2 b2 (by decide) rfl rfl
      (by norm_num [a2, b2, set_coin_pnl_row])
  obtain ⟨h9, h10⟩ := h8 (by norm_num [a2, set_coin_pnl_row]) (by norm_num [b2, set_coin_pnl_row])
  exact ⟨r, hstep, h1, h3, h9, h10⟩

lemma max_by_ratio_mem (xs : List (Pair × ℚ)) : ∀ x, max_by_ratio x xs ∈ x :: xs := by
  induction xs with
  | nil => intro x; simp [max_by_ratio]
  | cons y ys ih =>
    intro x
    have := ih (if y.2 > x.2 then y else x)
    simp only [max_by_ratio, List.foldl_cons] at this ⊢
    rcases List.mem_cons.mp this with h | h
    · rw [h]
      by_cases hy : y.2 > x.2 <;> simp [hy]
    · simp [h]

lemma max_by_ratio_ge (xs : List (Pair × ℚ)) :
    ∀ x, ∀ q ∈ x :: xs, q.2 ≤ (max_by_ratio x xs).2 := by
  induction xs with
  | nil =>
    intro x q hq
    rcases List.mem_cons.mp hq with h | h
    · rw [h]; simp [max_by_ratio]
    · simp at h
  | cons y ys ih =>
    intro x q hq
    have hstep : x.2 ≤ (if y.2 > x.2 then y else x).2 ∧ y.2 ≤ (if y.2 > x.2 then y else x).2 := by
      by_cases hy : y.2 > x.2
      · simp only [if_pos hy]
        exact ⟨le_of_lt hy, le_refl _⟩
      · simp only [if_neg hy]
        exact ⟨le_refl _, not_lt.mp hy⟩
    have hres : (if y.2 > x.2 then y else x).2 ≤ (max_by_ratio (if y.2 > x.2 then y else x) ys).2 :=
      ih (if y.2 > x.2 then y else x) _ (List.mem_cons_self _ _)
    have heq : max_by_ratio x (y :: ys) = max_by_ratio (if y.2 > x.2 then y else x) ys := by
      simp [max_by_ratio]
    rw [heq]
    rcases List.mem_cons.mp hq with h | h
    · rw [h]; exact le_trans hstep.1 hres
    · rcases List.mem_cons.mp h with h2 | h2
      · rw [h2]; exact le_trans hstep.2 hres
      · exact ih (if y.2 > x.2 then y else x) q (List.mem_cons_of_mem _ h2)

/-- C6: the jump selection never returns a pair with a non-positive score;
when some score is positive it returns a pair from the score map carrying
the global maximum score, and when no score is positive it returns
nothing. -/
theorem jump_to_best_coin_choice_spec (l : List (Pair × ℚ)) :
    (∀ p, jump_to_best_coin_choice l = some p → p ∈ l ∧ 0 < p.2 ∧ ∀ q ∈ l, q.2 ≤ p.2)
    ∧ ((∃ q ∈ l, 0 < q.2) → jump_to_best_coin_choice l ≠ none)
    ∧ ((∀ q ∈ l, q.2 ≤ 0) → jump_to_best_coin_choice l = none) := by
  refine ⟨?_, ?_, ?_⟩
  · intro p hp
    rw [jump_to_best_coin_choice] at hp
    cases hf : l.filter (fun kv => decide (kv.2 > 0)) with
    | nil => rw [hf] at hp; exact absurd hp (by simp)
    | cons x xs =>
      rw [hf] at hp
      have hpm : p = max_by_ratio x xs := by
        have h2 : max_by_ratio x xs = p := by simpa using hp
        exact h2.symm
      have hmem : p ∈ l.filter (fun kv => decide (kv.2 > 0)) := by
        rw [hf, hpm]; exact max_by_ratio_mem xs x
      have hml := List.mem_filter.mp hmem
      have hpos : 0 < p.2 := by simpa using hml.2
      refine ⟨hml.1, hpos, ?_⟩
      intro q hq
      by_cases hq2 : 0 < q.2
      · have hqf : q ∈ l.filter (fun kv => decide (kv.2 > 0)) :=
          List.mem_filter.mpr ⟨hq, by simpa using hq2⟩
        rw [hf] at hqf
        rw [hpm]
        exact max_by_ratio_ge xs x q hqf
      · exact le_trans (not_lt.mp hq2) (le_of_lt hpos)
  · rintro ⟨q, hq, hq2⟩
    have hqf : q ∈ l.filter (fun kv => decide (kv.2 > 0)) :=
      List.mem_filter.mpr ⟨hq, by simpa using hq2⟩
    rw [jump_to_best_coin_choice]
    cases hf : l.filter (fun kv => decide (kv.2 > 0)) with
    | nil => rw [hf] at hqf; exact absurd hqf (by simp)
    | cons x xs => simp
  · intro hall
    rw [jump_to_best_coin_choice]
    cases hf : l.filter (fun kv => decide (kv.2 > 0)) with
    | nil => rfl
    | cons x xs =>
      exfalso
      have hx : x ∈ l.filter (fun kv => decide (kv.2 > 0)) := by
        rw [hf]; exact List.mem_cons_self _ _
      have hml := List.mem_filter.mp hx
      have : 0 < x.2 := by simpa using hml.2
      exact absurd (hall x hml.1) (not_le.mpr this)

/-- Score map with one positive score, for the C6 witness. -/
def ratio_list_pos : List (Pair × ℚ) :=
  [({ from_coin := "AAA", to_coin := "CCC", ratio := some 1 }, -1),
   ({ from_coin := "AAA", to_coin := "BBB", ratio := some 1 }, 2)]

/-- Score map with no positive score, for the C6 witness. -/
def ratio_list_neg : List (Pair × ℚ) :=
  [({ from_coin := "AAA", to_coin := "CCC", ratio := some 1 }, -1),
   ({ from_coin := "AAA", to_coin := "BBB", ratio := some 1 }, 0)]

/-- C6 witness: on a concrete map the selected pair carries the positive
maximum score, and a concrete all-non-positive map selects nothing. -/
theorem jump_to_best_coin_choice_spec_witness :
    (({ from_coin := "AAA", to_coin := "BBB", ratio := some 1 }, (2:ℚ)) ∈ ratio_list_pos
      ∧ (0:ℚ) < 2
      ∧ ∀ q ∈ ratio_list_pos, q.2 ≤ (2:ℚ))
    ∧ jump_to_best_coin_choice ratio_list_neg = none := by
  constructor
  · exact (jump_to_best_coin_choice_spec ratio_list_pos).1
      ({ from_coin := "AAA", to_coin := "BBB", ratio := some 1 }, 2)
      (by norm_num [jump_to_best_coin_choice, ratio_list_pos, max_by_ratio])
  · exact (jump_to_best_coin_choice_spec ratio_list_neg).2.2
      (by norm_num [ratio_list_neg])

/-- C5 (amended): with a non-zero held price, the threshold update
recomputes `ratio = sell_price(from_coin)/heldPrice` for every pair whose
`to_coin` is the held coin, except pairs whose from-coin price is
unavailable and pairs whose from-coin balance value exceeds the minimum
notional; the min-notional skip guard applies under every configuration. -/
theorem update_trade_threshold_spec (cfg : Config) (env : Env) (coin : String)
    (cp : ℚ) (pairs : List Pair) (h : cp ≠ 0) :
    update_trade_threshold cfg env coin (some cp) pairs
        = pairs.map (update_pair_ratio cfg env coin cp)
    ∧ ∀ p : Pair,
      (p.to_coin ≠ coin → update_pair_ratio cfg env coin cp p = p)
      ∧ (p.to_coin = coin → env.sell_price p.from_coin cfg.bridge = none →
          update_pair_ratio cfg env coin cp p = p)
      ∧ (∀ f, p.to_coin = coin → env.sell_price p.from_coin cfg.bridge = some f →
          f * env.balance p.from_coin > env.min_notional p.from_coin cfg.bridge →
          update_pair_ratio cfg env coin cp p = p)
      ∧ (∀ f, p.to_coin = coin → env.sell_price p.from_coin cfg.bridge = some f →
          ¬(f * env.balance p.from_coin > env.min_notional p.from_coin cfg.bridge) →
          update_pair_ratio cfg env coin cp p = { p with ratio := some (f / cp) }) := by
  refine ⟨by simp [update_trade_threshold, h], ?_⟩
  intro p
  refine ⟨fun h1 => by simp [update_pair_ratio, h1], fun h1 h2 => ?_, fun f h1 h2 h3 => ?_,
    fun f h1 h2 h3 => ?_⟩
  · simp [update_pair_ratio, h1, h2]
  · simp [update_pair_ratio, h1, h2, if_pos h3]
  · simp [update_pair_ratio, h1, h2, if_neg h3]

/-- Exchange environment in which the from-coin "ETH" has a sell price of 3
and a held balance of 10 against a minimum notional of 5, so the
min-notional guard fires.  It ignores the configured bridge symbol. -/
def env_guard : Env :=
  { sell_price := fun c _ => if c = "ETH" then some 3 else none,
    ticker_price := fun _ => 1,
    balance := fun c => if c = "ETH" then 10 else 0,
    min_notional := fun _ _ => 5 }

/-- Single pair pointing at the held coin "BTC". -/
def pairs_guard : List Pair := [{ from_coin := "ETH", to_coin := "BTC", ratio := some 1 }]

/-- C5 counterexample: in a concrete scenario where the from-coin balance
value (30) exceeds the minimum notional (5), no configuration whatsoever
makes the threshold update touch the pair — the min-notional skip guard
cannot be toggled off. -/
theorem update_trade_threshold_counterexample :
    ¬ ∃ cfg : Config,
      update_trade_threshold cfg env_guard "BTC" (some 2) pairs_guard ≠ pairs_guard := by
  rintro ⟨cfg, hne⟩
  exact hne (by norm_num [update_trade_threshold, update_pair_ratio, env_guard, pairs_guard])

/-- Exchange environment like `env_guard` but with an "ETH" balance of 1,
whose value 3 stays below the minimum notional 5. -/
def env_small : Env :=
  { sell_price := fun c _ => if c = "ETH" then some 3 else none,
    ticker_price := fun _ => 1,
    balance := fun c => if c = "ETH" then 1 else 0,
    min_notional := fun _ _ => 5 }

/-- Concrete configuration for the C5 witness. -/
def cfg0 : Config := { bridge := "USDT", scout_multiplier := 5, ratio_calc := RatioCalc.defaultCalc }

/-- C5 witness: with held price 2 and an affordable from-coin balance the
pair ratio is recomputed to `3/2`. -/
theorem update_trade_threshold_spec_witness :
    update_trade_threshold cfg0 env_small "BTC" (some 2) pairs_guard
        = pairs_guard.map (update_pair_ratio cfg0 env_small "BTC" 2)
    ∧ update_pair_ratio cfg0 env_small "BTC" 2
        { from_coin := "ETH", to_coin := "BTC", ratio := some 1 }
        = { from_coin := "ETH", to_coin := "BTC", ratio := some (3 / 2) } := by
  refine ⟨(update_trade_threshold_spec cfg0 env_small "BTC" 2 pairs_guard (by norm_num)).1, ?_⟩
  have h := ((update_trade_threshold_spec cfg0 env_small "BTC" 2 pairs_guard (by norm_num)).2
      { from_coin := "ETH", to_coin := "BTC", ratio := some 1 }).2.2.2 3 rfl
      (by norm_num [env_small, cfg0]) (by norm_num [env_small, cfg0])
  simpa using h

/-- C1 (amended): when either merge endpoint cannot be resolved to a path,
`merge_paths` returns no merged path, writes no CoinPnl or UsdPnl row,
deactivates neither old path and records no current-coin change — but it
does allocate one fresh active path before the resolution check, which is
left behind. -/
theorem merge_paths_unresolved_spec (env : Env) (merge_from : PathRef) (merge_to : String)
    (q price : ℚ) (st : DbState)
    (h : resolve_path st merge_from = none ∨ get_coin_path st merge_to = none) :
    ∃ st', merge_paths env merge_from merge_to q price st = some (none, st')
      ∧ st'.coinPnls = st.coinPnls
      ∧ st'.usdPnls = st.usdPnls
      ∧ st'.currentCoins = st.currentCoins
      ∧ st'.paths = (st.nextPathId, true) :: st.paths
      ∧ st'.nextPathId = st.nextPathId + 1 := by
  refine ⟨(set_new_coin_path st).2, ?_, rfl, rfl, rfl, rfl, rfl⟩
  rcases h with h | h
  · simp [merge_paths, h]
  · simp only [merge_paths, h]
    cases resolve_path st merge_from <;> rfl

/-- Ledger state with one active path, no current-coin assignment for any
coin and no PNL history. -/
def st_unresolved : DbState :=
  { nextPathId := 1, paths := [(0, true)], coins := ["BTC", "ETH"], activeCoins := [],
    currentCoins := [], coinPnls := [], usdPnls := [] }

/-- Exchange environment with trivial constant quotes. -/
def env0 : Env :=
  { sell_price := fun _ _ => none, ticker_price := fun _ => 1, balance := fun _ => 0,
    min_notional := fun _ _ => 0 }

/-- C1 counterexample: merging from the unresolvable coin "BTC" returns no
merged path, yet the resulting ledger has gained a fresh active path
`(1, true)` — the failed call does mutate ledger state. -/
theorem merge_paths_counterexample :
    (merge_paths env0 (PathRef.byCoin "BTC") "ETH" 1 1 st_unresolved).map
        (fun r => (r.1, r.2.paths)) = some (none, [(1, true), (0, true)])
    ∧ st_unresolved.paths = [(0, true)] :=
  ⟨rfl, rfl⟩

/-- C1 witness: the amended statement at the concrete unresolvable call. -/
theorem merge_paths_unresolved_spec_witness :
    ∃ st', merge_paths env0 (PathRef.byCoin "BTC") "ETH" 1 1 st_unresolved = some (none, st')
      ∧ st'.coinPnls = st_unresolved.coinPnls
      ∧ st'.paths = (st_unresolved.nextPathId, true) :: st_unresolved.paths := by
  obtain ⟨st', h1, h2, _, _, h5, _⟩ :=
    merge_paths_unresolved_spec env0 (PathRef.byCoin "BTC") "ETH" 1 1 st_unresolved (Or.inl rfl)
  exact ⟨st', h1, h2, h5⟩

/-- C10: a manual transaction matching none of the three reconciliation
cases — for example a withdrawal of a coin in neither active set, or a
deposit of a coin present only in the bot-active set — leaves the ledger
state untouched, does not fail, and the batch continues with the
remaining transactions. -/
theorem handle_manual_transactions_skip_spec (env : Env) (ex bot : List String)
    (tx : Transaction) (txs : List Transaction) (st : DbState)
    (h1 : ¬(tx.coin ∈ ex ∧ tx.coin ∉ bot ∧ tx.deposit = true))
    (h2 : ¬(tx.coin ∈ bot ∧ tx.coin ∉ ex ∧ tx.deposit = false))
    (h3 : ¬(tx.coin ∈ ex ∧ tx.coin ∈ bot)) :
    handle_one_transaction env ex bot (ex.filter (fun x => decide (x ∉ bot)))
        (bot.filter (fun x => decide (x ∉ ex))) st tx = some st
    ∧ handle_manual_transactions env (tx :: txs) ex bot st
        = handle_manual_transactions env txs ex bot st := by
  have hn1 : ¬(tx.coin ∈ ex.filter (fun x => decide (x ∉ bot)) ∧ tx.deposit = true) := by
    rintro ⟨hm, hd⟩
    have hmf := List.mem_filter.mp hm
    exact h1 ⟨hmf.1, by simpa using hmf.2, hd⟩
  have hn2 : ¬(tx.coin ∈ bot.filter (fun x => decide (x ∉ ex)) ∧ tx.deposit = false) := by
    rintro ⟨hm, hd⟩
    have hmf := List.mem_filter.mp hm
    exact h2 ⟨hmf.1, by simpa using hmf.2, hd⟩
  have hone : handle_one_transaction env ex bot (ex.filter (fun x => decide (x ∉ bot)))
      (bot.filter (fun x => decide (x ∉ ex))) st tx = some st := by
    simp only [handle_one_transaction, if_neg hn1, if_neg hn2, if_neg h3]
  refine ⟨hone, ?_⟩
  simp only [handle_manual_transactions, handle_manual_transactions_loop, hone]

/-- Withdrawal of a coin in neither active set, for the C10 witness. -/
def tx_neither : Transaction := { coin := "CCC", coin_amount := 1, bridge_price := 1, deposit := false }

/-- Deposit of a coin only in the bot-active set, for the C10 witness. -/
def tx_bot_only : Transaction := { coin := "BBB", coin_amount := 1, bridge_price := 1, deposit := true }

/-- Empty ledger state for the C10 witness. -/
def st_skip : DbState :=
  { nextPathId := 0, paths := [], coins := [], activeCoins := [], currentCoins := [],
    coinPnls := [], usdPnls := [] }

/-- C10 witness: both example transactions of the claim are no-ops on a
concrete ledger and the batch moves on. -/
theorem handle_manual_transactions_skip_spec_witness :
    (handle_one_transaction env0 ["AAA"] ["BBB"]
        ((["AAA"] : List String).filter (fun x => decide (x ∉ (["BBB"] : List String))))
        ((["BBB"] : List String).filter (fun x => decide (x ∉ (["AAA"] : List String))))
        st_skip tx_neither = some st_skip)
    ∧ handle_manual_transactions env0 [tx_bot_only] ["AAA"] ["BBB"] st_skip
        = handle_manual_transactions env0 [] ["AAA"] ["BBB"] st_skip :=
  ⟨(handle_manual_transactions_skip_spec env0 ["AAA"] ["BBB"] tx_neither [] st_skip
      (by decide) (by decide) (by decide)).1,
   (handle_manual_transactions_skip_spec env0 ["AAA"] ["BBB"] tx_bot_only [] st_skip
      (by decide) (by decide) (by decide)).2⟩

lemma update_usd_pnl_coinPnls (env : Env) (c : String) (p : ℕ) (t : ℚ) (st st' : DbState)
    (h : update_usd_pnl env c p t st = some st') : st'.coinPnls = st.coinPnls := by
  simp only [update_usd_pnl] at h
  split at h
  · obtain rfl : _ = st' := Option.some.inj h
    rfl
  · split at h
    · exact absurd h (by simp)
    · obtain rfl : _ = st' := Option.some.inj h
      rfl

lemma get_last_coin_pnl_append_other (st : DbState) (p2 : ℕ) (row : CoinPnl)
    (c' : String) (p' : ℕ) (hne : row.coin ≠ c') :
    get_last_coin_pnl (append_coin_pnl st p2 row) c' p' = get_last_coin_pnl st c' p' := by
  have hbeq : (row.coin == c') = false := beq_eq_false_iff_ne.mpr hne
  simp [get_last_coin_pnl, append_coin_pnl, List.find?_cons, hbeq]

lemma get_last_coin_pnl_append_self (st : DbState) (p' : ℕ) (row : CoinPnl)
    (c' : String) (hc : row.coin = c') :
    get_last_coin_pnl (append_coin_pnl st p' row) c' p' = some row := by
  simp [get_last_coin_pnl, append_coin_pnl, List.find?_cons, hc]

lemma adjust_existing_row_coin (coin : String) (q price : ℚ) (ec : String)
    (prev row : CoinPnl) (h : adjust_existing_row coin q price ec prev = some row) :
    row.coin = ec := by
  simp only [adjust_existing_row] at h
  split at h
  · exact absurd h (by simp)
  · split at h
    · exact absurd h (by simp)
    · obtain rfl : _ = row := Option.some.inj h
      rfl

lemma adjust_existing_row_self (coin : String) (q price : ℚ) (prev row : CoinPnl)
    (h : adjust_existing_row coin q price coin prev = some row) :
    row.coin_amount = prev.coin_amount + q
    ∧ row.coin_gain = prev.coin_gain
    ∧ row.percent_gain = prev.percent_gain
    ∧ row.total_coin_gain = prev.total_coin_gain
    ∧ row.total_percent_gain = prev.total_percent_gain := by
  simp only [adjust_existing_row] at h
  split at h
  · exact absurd h (by simp)
  · rename_i est lp heq
    simp only [if_true] at heq
    injection heq with h2
    injection h2 with hq hl
    subst hq
    subst hl
    split at h
    · exact absurd h (by simp)
    · obtain rfl : _ = row := Option.some.inj h
      exact ⟨rfl, rfl, rfl, rfl, rfl⟩

lemma set_existing_loop_preserves (coin : String) (p : ℕ) (q price : ℚ)
    (c' : String) (p' : ℕ) :
    ∀ (l : List String) (st st' : DbState), (∀ ec ∈ l, ec ≠ c') →
    set_deposited_coin_pnl_existing_path_loop coin p q price st l = some st' →
    get_last_coin_pnl st' c' p' = get_last_coin_pnl st c' p' := by
  intro l
  induction l with
  | nil =>
    intro st st' _ h
    obtain rfl : st = st' := Option.some.inj h
    rfl
  | cons ec rest ih =>
    intro st st' hne h
    simp only [set_deposited_coin_pnl_existing_path_loop] at h
    split at h
    · exact ih st st' (fun e he => hne e (List.mem_cons_of_mem _ he)) h
    · rename_i prev hg
      split at h
      · exact absurd h (by simp)
      · rename_i row ha
        have hrow : row.coin = ec := adjust_existing_row_coin coin q price ec prev row ha
        have hpres : get_last_coin_pnl (append_coin_pnl st p row) c' p'
            = get_last_coin_pnl st c' p' :=
          get_last_coin_pnl_append_other st p row c' p'
            (by rw [hrow]; exact hne ec (List.mem_cons_self _ _))
        rw [ih _ st' (fun e he => hne e (List.mem_cons_of_mem _ he)) h, hpres]

lemma set_existing_loop_effect (coin : String) (p : ℕ) (q price : ℚ) :
    ∀ (l1 l2 : List String) (st st' : DbState) (prev : CoinPnl), coin ∉ l1 → coin ∉ l2 →
    get_last_coin_pnl st coin p = some prev →
    set_deposited_coin_pnl_existing_path_loop coin p q price st (l1 ++ coin :: l2) = some st' →
    ∃ row, adjust_existing_row coin q price coin prev = some row
      ∧ get_last_coin_pnl st' coin p = some row := by
  intro l1
  induction l1 with
  | nil =>
    intro l2 st st' prev _ h2 hprev h
    simp only [List.nil_append, set_deposited_coin_pnl_existing_path_loop] at h
    split at h
    · rename_i hg
      rw [hprev] at hg
      exact absurd hg (by simp)
    · rename_i prevx hg
      rw [hprev] at hg
      obtain rfl : prevx = prev := (Option.some.inj hg).symm
      split at h
      · exact absurd h (by simp)
      · rename_i row ha
        refine ⟨row, ha, ?_⟩
        have hrow : row.coin = coin := adjust_existing_row_coin coin q price coin prevx row ha
        have hmid : get_last_coin_pnl (append_coin_pnl st p row) coin p = some row :=
          get_last_coin_pnl_append_self st p row coin hrow
        have hpres := set_existing_loop_preserves coin p q price coin p l2
          (append_coin_pnl st p row) st' (fun e he heq => h2 (heq ▸ he)) h
        rw [hpres, hmid]
  | cons ec l1' ih =>
    intro l2 st st' prev h1 h2 hprev h
    have hecne : ec ≠ coin := fun heq => h1 (by rw [← heq]; exact List.mem_cons_self _ _)
    have h1' : coin ∉ l1' := fun hm => h1 (List.mem_cons_of_mem _ hm)
    simp only [List.cons_append, set_deposited_coin_pnl_existing_path_loop] at h
    split at h
    · exact ih l2 st st' prev h1' h2 hprev h
    · rename_i pec hg
      split at h
      · exact absurd h (by simp)
      · rename_i rowec ha
        have hrc : rowec.coin = ec := adjust_existing_row_coin coin q price ec pec rowec ha
        have hprev' : get_last_coin_pnl (append_coin_pnl st p rowec) coin p = some prev := by
          rw [get_last_coin_pnl_append_other st p rowec coin p (by rw [hrc]; exact hecne)]
          exact hprev
        exact ih l2 (append_coin_pnl st p rowec) st' prev h1' h2 hprev' h

lemma handle_one_transaction_existing (env : Env) (ex bot : List String)
    (st : DbState) (tx : Transaction) (hex : tx.coin ∈ ex) (hbot : tx.coin ∈ bot) :
    handle_one_transaction env ex bot (ex.filter (fun x => decide (x ∉ bot)))
        (bot.filter (fun x => decide (x ∉ ex))) st tx
    = (match get_coin_path st tx.coin with
       | none => some st
       | some coin_path =>
         match set_deposited_coin_pnl_existing_path tx.coin coin_path
             (if tx.deposit then tx.coin_amount else - tx.coin_amount) tx.bridge_price st with
         | none => none
         | some st1 =>
           update_usd_pnl env tx.coin coin_path
             ((if tx.deposit then tx.coin_amount else - tx.coin_amount) * tx.bridge_price) st1) := by
  have hn1 : ¬(tx.coin ∈ ex.filter (fun x => decide (x ∉ bot)) ∧ tx.deposit = true) := by
    rintro ⟨hm, _⟩
    exact (by simpa using (List.mem_filter.mp hm).2 : tx.coin ∉ bot) hbot
  have hn2 : ¬(tx.coin ∈ bot.filter (fun x => decide (x ∉ ex)) ∧ tx.deposit = false) := by
    rintro ⟨hm, _⟩
    exact (by simpa using (List.mem_filter.mp hm).2 : tx.coin ∉ ex) hex
  simp only [handle_one_transaction, if_neg hn1, if_neg hn2, if_pos (And.intro hex hbot)]

/-- C8: a reconciliation transaction on a coin present in both active sets
adjusts the coin's latest snapshot on its path by the signed quantity
(positive for a deposit, negative for a withdrawal) while leaving all four
gain fields unchanged, and feeds the signed bridge value
`quantity * price` as the external adjustment into the USD PNL update; in
particular a partial withdrawal leaves `total_coin_gain` unchanged while
`coin_amount` decreases by the withdrawn quantity. -/
theorem handle_manual_transactions_existing_spec
    (env : Env) (ex bot : List String) (tx : Transaction) (st st' : DbState)
    (p : ℕ) (prev : CoinPnl) (l1 l2 : List String)
    (hsplit : st.coins = l1 ++ tx.coin :: l2) (hl1 : tx.coin ∉ l1) (hl2 : tx.coin ∉ l2)
    (hex : tx.coin ∈ ex) (hbot : tx.coin ∈ bot)
    (hpath : get_coin_path st tx.coin = some p)
    (hprev : get_last_coin_pnl st tx.coin p = some prev)
    (hrun : handle_manual_transactions env [tx] ex bot st = some st') :
    ∃ st1, set_deposited_coin_pnl_existing_path tx.coin p
          (if tx.deposit then tx.coin_amount else - tx.coin_amount) tx.bridge_price st = some st1
      ∧ update_usd_pnl env tx.coin p
          ((if tx.deposit then tx.coin_amount else - tx.coin_amount) * tx.bridge_price) st1
          = some st'
      ∧ ∃ row, get_last_coin_pnl st' tx.coin p = some row
        ∧ row.coin_amount
            = prev.coin_amount + (if tx.deposit then tx.coin_amount else - tx.coin_amount)
        ∧ row.coin_gain = prev.coin_gain
        ∧ row.percent_gain = prev.percent_gain
        ∧ row.total_coin_gain = prev.total_coin_gain
        ∧ row.total_percent_gain = prev.total_percent_gain := by
  have hone : handle_one_transaction env ex bot (ex.filter (fun x => decide (x ∉ bot)))
      (bot.filter (fun x => decide (x ∉ ex))) st tx = some st' := by
    simp only [handle_manual_transactions, handle_manual_transactions_loop] at hrun
    cases hh : handle_one_transaction env ex bot (ex.filter (fun x => decide (x ∉ bot)))
        (bot.filter (fun x => decide (x ∉ ex))) st tx with
    | none => rw [hh] at hrun; exact absurd hrun (by simp)
    | some s1 =>
      rw [hh] at hrun
      obtain rfl : s1 = st' := Option.some.inj hrun
      rfl
  rw [handle_one_transaction_existing env ex bot st tx hex hbot, hpath] at hone
  split at hone
  · rename_i heqp
    exact absurd heqp (by simp)
  · rename_i coin_path heqp
    obtain rfl : p = coin_path := Option.some.inj heqp
    split at hone
    · exact absurd hone (by simp)
    · rename_i st1 hs
      refine ⟨st1, hs, hone, ?_⟩
      have hs' := hs
      rw [set_deposited_coin_pnl_existing_path, hsplit] at hs'
      obtain ⟨row, hadj, hlast⟩ :=
        set_existing_loop_effect tx.coin p (if tx.deposit then tx.coin_amount else - tx.coin_amount)
          tx.bridge_price l1 l2 st st1 prev hl1 hl2 hprev hs'
      obtain ⟨ha1, ha2, ha3, ha4, ha5⟩ :=
        adjust_existing_row_self tx.coin (if tx.deposit then tx.coin_amount else - tx.coin_amount)
          tx.bridge_price prev row hadj
      have hcp : st'.coinPnls = st1.coinPnls :=
        update_usd_pnl_coinPnls env tx.coin p
          ((if tx.deposit then tx.coin_amount else - tx.coin_amount) * tx.bridge_price) st1 st' hone
      have hsame : get_last_coin_pnl st' tx.coin p = get_last_coin_pnl st1 tx.coin p := by
        simp [get_last_coin_pnl, hcp]
      exact ⟨row, by rw [hsame]; exact hlast, ha1, ha2, ha3, ha4, ha5⟩

/-- Previous snapshot of 5 BTC at price 2 with total coin gain 1, for the
C8 witness. -/
def prev8 : CoinPnl := set_coin_pnl_row "BTC" 5 2 1 25 1 25

/-- Ledger with the single active coin "BTC" on path 0, for the C8 witness. -/
def st8 : DbState :=
  { nextPathId := 1, paths := [(0, true)], coins := ["BTC"], activeCoins := ["BTC"],
    currentCoins := [("BTC", 0)], coinPnls := [(0, prev8)],
    usdPnls := [(0, ⟨10, 0, 0, 0, 0⟩)] }

/-- Partial withdrawal of 2 BTC at bridge price 2, for the C8 witness. -/
def tx8 : Transaction := { coin := "BTC", coin_amount := 2, bridge_price := 2, deposit := false }

/-- Exchange environment after the C8 witness withdrawal: 3 BTC remain at
USDT price 2. -/
def env8 : Env :=
  { sell_price := fun _ _ => none, ticker_price := fun _ => 2, balance := fun _ => 3,
    min_notional := fun _ _ => 0 }

/-- Ledger after reconciling the C8 witness withdrawal. -/
def st8' : DbState :=
  { nextPathId := 1, paths := [(0, true)], coins := ["BTC"], activeCoins := ["BTC"],
    currentCoins := [("BTC", 0)],
    coinPnls := [(0, set_coin_pnl_row "BTC" 3 2 1 25 1 25), (0, prev8)],
    usdPnls := [(0, ⟨6, 0, 0, 0, 0⟩), (0, ⟨10, 0, 0, 0, 0⟩)] }

/-- C8 witness: the concrete partial withdrawal of 2 BTC leaves every gain
field unchanged while the amount drops from 5 to 3. -/
theorem handle_manual_transactions_existing_spec_witness :
    ∃ row, get_last_coin_pnl st8' tx8.coin 0 = some row
      ∧ row.coin_amount
          = prev8.coin_amount + (if tx8.deposit then tx8.coin_amount else - tx8.coin_amount)
      ∧ row.total_coin_gain = prev8.total_coin_gain
      ∧ row.percent_gain = prev8.percent_gain := by
  have hbu : ("BTC" : String) ≠ "USDT" := by decide
  have hrun : handle_manual_transactions env8 [tx8] ["BTC"] ["BTC"] st8 = some st8' := by
    norm_num [handle_manual_transactions, handle_manual_transactions_loop, handle_one_transaction,
      set_deposited_coin_pnl_existing_path, set_deposited_coin_pnl_existing_path_loop,
      adjust_existing_row, update_usd_pnl, get_coin_path, get_last_coin_pnl, get_last_usd_pnl,
      append_coin_pnl, set_usd_pnl, set_coin_pnl_row, pydiv, round2, round_eq, if_neg hbu,
      env8, st8, st8', tx8, prev8]
  obtain ⟨st1, _, _, row, hr, h1, _, hpg, htcg, _⟩ :=
    handle_manual_transactions_existing_spec env8 ["BTC"] ["BTC"] tx8 st8 st8' 0 prev8 [] []
      rfl (by simp) (by simp) (by simp [tx8]) (by simp [tx8]) rfl rfl hrun
  exact ⟨row, hr, h1, htcg, hpg⟩
